import Mathlib

set_option autoImplicit false

/-!
Verification development for the ghoodoo webhook bridge.

The definitions below are a shallow embedding of the TypeScript sources:
  * `src/parser/references.ts`   (reference extraction)
  * `src/github/events.ts`       (push / pull-request reconciliation)
  * `src/odoo/client.ts`         (rpc retry loop, stage resolution)
Remote calls are abstracted as explicit environments (records of functions
returning `Except`), and every handler additionally returns the ordered
trace of remote calls it performed, so that call-sequence properties can
be stated.
-/

namespace Ghoodoo

/-! ## Reference parser (`src/parser/references.ts`)

The parser is driven by the JavaScript regular expression

  `(?:(closes|fixes|resolves|refs|references)\s+)?ODP-(\d+)`  with flags `gi`.

We embed the matching semantics of this concrete pattern directly:
scanning left to right, at each position first try the optional keyword
group (each alternative in order, followed by one or more `\s` characters,
then the identifier), otherwise the bare identifier `ODP-` followed by a
maximal nonempty digit run; a successful match resumes scanning after its
end, a failure advances one character.
-/

abbrev Chars := List Char

/-- The JavaScript `\s` character class (used by the `\s+` in the pattern). -/
def isJsSpace (c : Char) : Bool :=
  let n := c.toNat
  n == 0x20 || n == 0x09 || n == 0x0a || n == 0x0d || n == 0x0b || n == 0x0c ||
  n == 0xa0 || n == 0x1680 || (decide (0x2000 ≤ n) && decide (n ≤ 0x200a)) ||
  n == 0x2028 || n == 0x2029 || n == 0x202f || n == 0x205f || n == 0x3000 || n == 0xfeff

/-- The JavaScript `\d` character class. -/
def isDigitC (c : Char) : Bool :=
  decide (0x30 ≤ c.toNat) && decide (c.toNat ≤ 0x39)

/-- Case-insensitive character comparison, as performed by the `i` regex flag
on the ASCII keywords and `ODP-` literal of the pattern. -/
def lcEq (patternChar textChar : Char) : Bool :=
  patternChar.toLower == textChar.toLower

/-- Match the literal `pat` case-insensitively at the front of `cs`;
on success return the remaining characters. -/
def stripCI : Chars → Chars → Option Chars
  | [], cs => some cs
  | _ :: _, [] => none
  | p :: ps, c :: cs => if lcEq p c then stripCI ps cs else none

/-- `CLOSE_KEYWORDS` from the source. -/
def closeKeywords : List Chars :=
  [['c', 'l', 'o', 's', 'e', 's'],
   ['f', 'i', 'x', 'e', 's'],
   ['r', 'e', 's', 'o', 'l', 'v', 'e', 's']]

/-- `REF_KEYWORDS` from the source. -/
def refKeywords : List Chars :=
  [['r', 'e', 'f', 's'],
   ['r', 'e', 'f', 'e', 'r', 'e', 'n', 'c', 'e', 's']]

/-- The keyword alternation of the pattern, in source order. -/
def allKeywords : List Chars := closeKeywords ++ refKeywords

/-- Match `ODP-` (case-insensitively) followed by a maximal nonempty digit
run at the front of `cs`; return the digit run and the rest. -/
def matchIdAt (cs : Chars) : Option (Chars × Chars) :=
  match stripCI ['o', 'd', 'p', '-'] cs with
  | none => none
  | some rest =>
    let ds := rest.takeWhile isDigitC
    if ds.isEmpty then none
    else some (ds, rest.dropWhile isDigitC)

/-- Try one keyword alternative at the front of `cs`: the keyword itself,
then one or more `\s` characters, then the identifier. -/
def keywordMatch (kw : Chars) (cs : Chars) : Option (Chars × Chars) :=
  match stripCI kw cs with
  | none => none
  | some r1 =>
    if (r1.takeWhile isJsSpace).isEmpty then none
    else matchIdAt (r1.dropWhile isJsSpace)

/-- Try the keyword alternatives in order (regex alternation order). -/
def tryKeywords : List Chars → Chars → Option (Chars × Chars × Chars)
  | [], _ => none
  | kw :: kws, cs =>
    match keywordMatch kw cs with
    | some (ds, rest) => some (kw, ds, rest)
    | none => tryKeywords kws cs

/-- One raw regex match: the (lower-cased, canonical) keyword of group 1 if
present, and the digit run of group 2. -/
structure RawMatch where
  keyword : Option Chars
  digits : Chars
deriving DecidableEq

/-- Attempt a match of the whole pattern anchored at the front of `cs`:
first with the optional keyword group, then without (regex `(?:…)?`
backtracking). Returns the match and the characters after it. -/
def matchAt (cs : Chars) : Option (RawMatch × Chars) :=
  match tryKeywords allKeywords cs with
  | some (kw, ds, rest) => some (⟨some kw, ds⟩, rest)
  | none =>
    match matchIdAt cs with
    | some (ds, rest) => some (⟨none, ds⟩, rest)
    | none => none

/-- Left-to-right global scan (`text.matchAll`): a match resumes after its
end, a failure advances one character.  `fuel` bounds the number of scan
steps; since every step consumes at least one character, `cs.length` fuel
is always sufficient, and `parseRefsChars` below instantiates it so. -/
def scanFuel : Nat → Chars → List RawMatch
  | 0, _ => []
  | _ + 1, [] => []
  | fuel + 1, c :: cs =>
    match matchAt (c :: cs) with
    | some (m, rest) => m :: scanFuel fuel rest
    | none => scanFuel fuel cs

/-- `ReferenceAction` from the source. -/
inductive ReferenceAction where
  | close
  | ref
deriving DecidableEq

/-- `TaskReference` from the source; `taskId` is a JavaScript number,
integer-valued here. -/
structure TaskReference where
  action : ReferenceAction
  taskId : Int
deriving DecidableEq

/-- Base-10 value of a digit run (`Number.parseInt(match[2], 10)`). -/
def digitsVal (ds : Chars) : Nat :=
  ds.foldl (fun a c => 10 * a + (c.toNat - 0x30)) 0

/-- Turn one raw match into a `TaskReference`
(`keyword && CLOSE_KEYWORDS.includes(keyword) ? "close" : "ref"`). -/
def matchToRef (m : RawMatch) : TaskReference :=
  { action :=
      match m.keyword with
      | some kw => if kw ∈ closeKeywords then ReferenceAction.close else ReferenceAction.ref
      | none => ReferenceAction.ref,
    taskId := Int.ofNat (digitsVal m.digits) }

/-- The `seen`-set deduplication loop of `parseReferences`:
skip a match whose `taskId` was already seen, otherwise keep it and
remember its `taskId`. -/
def dedupAux : List Int → List TaskReference → List TaskReference
  | _, [] => []
  | seen, r :: rs =>
    if r.taskId ∈ seen then dedupAux seen rs
    else r :: dedupAux (r.taskId :: seen) rs

/-- All raw matches of the pattern over `cs`, in match order, converted to
references (the per-match body of the source loop, before deduplication). -/
def rawRefsChars (cs : Chars) : List TaskReference :=
  (scanFuel cs.length cs).map matchToRef

/-- `parseReferences` on a character list. -/
def parseRefsChars (cs : Chars) : List TaskReference :=
  dedupAux [] (rawRefsChars cs)

/-- `parseReferences` from the source. -/
def parseReferences (text : String) : List TaskReference :=
  parseRefsChars text.data

/-- Raw (pre-deduplication) matches of a text, for stating the dedup policy. -/
def rawRefs (text : String) : List TaskReference :=
  rawRefsChars text.data

example : parseReferences "Working on ODP-123" = [⟨.ref, 123⟩] := by decide
example : parseReferences "Closes ODP-456" = [⟨.close, 456⟩] := by decide
example : parseReferences "Fixes ODP-789" = [⟨.close, 789⟩] := by decide
example : parseReferences "Refs ODP-222" = [⟨.ref, 222⟩] := by decide
example : parseReferences "References ODP-333" = [⟨.ref, 333⟩] := by decide
example : parseReferences "CLOSES odp-100 and fixes ODP-200" =
    [⟨.close, 100⟩, ⟨.close, 200⟩] := by decide
example : parseReferences "Closes ODP-1, refs ODP-2, and mentions ODP-3" =
    [⟨.close, 1⟩, ⟨.ref, 2⟩, ⟨.ref, 3⟩] := by decide
example : parseReferences "ODP-123 mentioned again ODP-123" = [⟨.ref, 123⟩] := by decide
example : parseReferences "No task references here" = [] := by decide
example : parseReferences "See [ODP-123](https://example.com) for details" =
    [⟨.ref, 123⟩] := by decide

/-! ## Push-event reconciliation (`handlePushEvent` in `src/github/events.ts`) -/

/-- The fields of one element of `PushEvent.commits` that the handler uses. -/
structure Commit where
  id : String
  message : String
  url : String
  authorEmail : Option String
deriving DecidableEq

/-- `CommitReference` from the source. -/
structure CommitReference where
  ref : TaskReference
  shortSha : String
  commitUrl : String
  commitTitle : String
  authorEmail : Option String
deriving DecidableEq

/-- `commit.id.substring(0, 7)`. -/
def shortShaOf (c : Commit) : String := String.mk (c.id.data.take 7)

/-- `commit.message.split("\n")[0]`. -/
def firstLine (s : String) : String := String.mk (s.data.takeWhile (fun c => c ≠ '\n'))

/-- The `allReferences` map: a JavaScript `Map` keyed by `taskId`, i.e. an
insertion-ordered association list whose `set` updates in place. -/
abbrev AllRefs := List (Int × CommitReference)

/-- `Map.prototype.get`. -/
def lookupEntry : AllRefs → Int → Option CommitReference
  | [], _ => none
  | (k, v) :: rest, t => if k = t then some v else lookupEntry rest t

/-- `Map.prototype.set`: overwrite in place if the key exists (keeping
insertion order), else append. -/
def setEntry : AllRefs → Int → CommitReference → AllRefs
  | [], t, v => [(t, v)]
  | (k, w) :: rest, t, v =>
    if k = t then (t, v) :: rest else (k, w) :: setEntry rest t v

/-- The body of the inner `for (const ref of refs)` loop of `handlePushEvent`:
`if (!existing || ref.action === "close") allReferences.set(ref.taskId, {...})`
with `ref: existing?.ref.action === "close" ? existing.ref : ref`. -/
def foldStep (m : AllRefs) (c : Commit) (r : TaskReference) : AllRefs :=
  match lookupEntry m r.taskId with
  | none =>
    setEntry m r.taskId
      ⟨r, shortShaOf c, c.url, firstLine c.message, c.authorEmail⟩
  | some existing =>
    if r.action = ReferenceAction.close then
      setEntry m r.taskId
        ⟨(if existing.ref.action = ReferenceAction.close then existing.ref else r),
         shortShaOf c, c.url, firstLine c.message, c.authorEmail⟩
    else m

/-- Fold one commit's parsed references into the map. -/
def foldCommit (m : AllRefs) (c : Commit) : AllRefs :=
  (parseReferences c.message).foldl (fun acc r => foldStep acc c r) m

/-- The whole reference-collection phase of `handlePushEvent`. -/
def buildAllReferences (commits : List Commit) : AllRefs :=
  commits.foldl foldCommit []

/-- `ProcessResult` from the source. -/
structure ProcessResult where
  processed : Nat
  errors : List String
deriving DecidableEq

/-- The Odoo calls the push handler can make, recorded as a trace. -/
inductive OdooCall where
  | getTask (id : Int)
  | addMessage (id : Int) (body : String) (authorEmail : Option String)
  | setStageDefault (id : Int)
deriving DecidableEq

/-- Abstraction of the `OdooClient` operations used by the push handler;
an `Except.error` models a thrown exception (its message). -/
structure PushEnv where
  getTask : Int → Except String (Option Unit)
  addMessage : Int → String → Option String → Except String Nat
  setStage : Int → Except String Bool

/-- `GH_ICON` from `src/github/events.ts`. -/
def GH_ICON : String :=
  "<img src=\"https://github.com/fluidicon.png\" width=\"16\" height=\"16\" style=\"vertical-align: middle; margin-right: 4px; border-radius: 3px;\">"

/-- The chatter message posted for a commit reference. -/
def pushMessage (cr : CommitReference) : String :=
  GH_ICON ++ " Referenced in commit <a href=\"" ++ cr.commitUrl ++ "\">" ++
    cr.shortSha ++ "</a>: " ++ cr.commitTitle

/-- The `"ODP-<id>: <reason>"` error strings of the handlers. -/
def taskErr (t : Int) (reason : String) : String := s!"ODP-{t}: {reason}"

/-- The `` `ODP-${ref.taskId}` `` labels collected in `updatedTasks`. -/
def taskLabel (t : Int) : String := s!"ODP-{t}"

/-- Outcome of processing one `(taskId, commitRef)` entry. -/
structure PushStep where
  inc : Nat
  errs : List String
  calls : List OdooCall
deriving DecidableEq

/-- The body of the `for (const [taskId, commitRef] of allReferences)` loop:
fetch the task (absent task or thrown error is recorded and the entry is
skipped), post the message, and for a CLOSE reference set the default
stage; `result.processed++` runs only after all of these succeed, any
thrown error lands in the surrounding `catch`. -/
def processEntry (env : PushEnv) (t : Int) (cr : CommitReference) : PushStep :=
  match env.getTask t with
  | Except.error e => ⟨0, [taskErr t e], [OdooCall.getTask t]⟩
  | Except.ok none => ⟨0, [taskErr t "Task not found"], [OdooCall.getTask t]⟩
  | Except.ok (some _) =>
    let msg := pushMessage cr
    match env.addMessage t msg cr.authorEmail with
    | Except.error e =>
      ⟨0, [taskErr t e], [OdooCall.getTask t, OdooCall.addMessage t msg cr.authorEmail]⟩
    | Except.ok _ =>
      if cr.ref.action = ReferenceAction.close then
        match env.setStage t with
        | Except.error e =>
          ⟨0, [taskErr t e],
           [OdooCall.getTask t, OdooCall.addMessage t msg cr.authorEmail,
            OdooCall.setStageDefault t]⟩
        | Except.ok _ =>
          ⟨1, [],
           [OdooCall.getTask t, OdooCall.addMessage t msg cr.authorEmail,
            OdooCall.setStageDefault t]⟩
      else
        ⟨1, [], [OdooCall.getTask t, OdooCall.addMessage t msg cr.authorEmail]⟩

/-- `handlePushEvent`, returning the result together with the Odoo call
trace. -/
def handlePushEvent (env : PushEnv) (commits : List Commit) :
    ProcessResult × List OdooCall :=
  (buildAllReferences commits).foldl
    (fun acc p =>
      let so := processEntry env p.1 p.2
      (⟨acc.1.processed + so.inc, acc.1.errors ++ so.errs⟩, acc.2 ++ so.calls))
    (⟨0, []⟩, [])

/-! ## Pull-request reconciliation (`handlePullRequestEvent` in
`src/github/events.ts`) -/

/-- `StageRef` from `src/odoo/client.ts`: a numeric id or a stage name. -/
inductive StageRef where
  | id (n : Int)
  | name (s : String)
deriving DecidableEq

/-- JavaScript truthiness of a `StageRef` value (`0` and `""` are falsy). -/
def refTruthy : StageRef → Bool
  | StageRef.id n => n != 0
  | StageRef.name s => s != ""

/-- JavaScript truthiness of an optional `StageRef` (`undefined` is falsy). -/
def optTruthy : Option StageRef → Bool
  | none => false
  | some r => refTruthy r

/-- `StageConfig` from `src/odoo/client.ts`. -/
structure StageConfig where
  done : StageRef
  inProgress : Option StageRef
  canceled : Option StageRef
deriving DecidableEq

/-- The `getTargetStage` closure of `handlePullRequestEvent`; the two
optional-stage guards are JavaScript truthiness tests on the configured
value. -/
def getTargetStage (stages : StageConfig) (isMerged isClosed isOpened : Bool)
    (refAction : ReferenceAction) : Option StageRef :=
  if isMerged = true ∧ refAction = ReferenceAction.close then some stages.done
  else if isClosed = true ∧ optTruthy stages.canceled = true then stages.canceled
  else if isOpened = true ∧ optTruthy stages.inProgress = true then stages.inProgress
  else none

/-- The fields of a `PullRequestEvent` the handler uses. -/
structure PrEvent where
  action : String
  number : Nat
  title : String
  body : Option String
  htmlUrl : String
  merged : Bool
  owner : String
  repoName : String
deriving DecidableEq

/-- `event.action === "closed" && pr.merged`. -/
def isMergedOf (e : PrEvent) : Bool := e.action == "closed" && e.merged

/-- `event.action === "closed" && !pr.merged`. -/
def isClosedOf (e : PrEvent) : Bool := e.action == "closed" && !e.merged

/-- `event.action === "opened" || event.action === "reopened"`. -/
def isOpenedOf (e : PrEvent) : Bool := e.action == "opened" || e.action == "reopened"

/-- The text searched for references: `` `${pr.title}\n${pr.body ?? ""}` ``. -/
def prText (e : PrEvent) : String := e.title ++ "\n" ++ e.body.getD ""

/-- The rendered action word of the PR chatter message. -/
def prActionWord (e : PrEvent) : String :=
  if e.action = "closed" then (if e.merged then "merged" else "closed") else e.action

/-- The chatter message posted for a PR reference. -/
def prMessage (e : PrEvent) : String :=
  GH_ICON ++ " Referenced in PR <a href=\"" ++ e.htmlUrl ++ "\">#" ++
    toString e.number ++ "</a> (" ++ prActionWord e ++ ")"

/-- The remote calls the PR handler can make, recorded as a trace. -/
inductive PrCall where
  | getTask (id : Int)
  | addMessage (id : Int) (body : String)
  | setStage (id : Int) (stage : StageRef)
  | postComment (owner : String) (repo : String) (number : Nat) (body : String)
deriving DecidableEq

/-- Abstraction of the remote operations used by the PR handler. -/
structure PrEnv where
  getTask : Int → Except String (Option Unit)
  addMessage : Int → String → Except String Nat
  setStage : Int → StageRef → Except String Bool
  postComment : String → String → Nat → String → Except String Unit

/-- `GitHubCommentConfig` from `src/github/comments.ts`; its presence is the
comment-posting capability. -/
structure GitHubCommentConfig where
  token : String
deriving DecidableEq

/-- Outcome of processing one reference of a PR. -/
structure PrStep where
  inc : Nat
  errs : List String
  updated : List String
  calls : List PrCall
deriving DecidableEq

/-- The body of the `for (const ref of refs)` loop of
`handlePullRequestEvent`: fetch the task, post the message, compute the
target stage, and apply it when it is truthy (`if (targetStage)`); on full
success the task label joins `updatedTasks` and `result.processed++`. -/
def processPrRef (env : PrEnv) (stages : StageConfig) (e : PrEvent)
    (r : TaskReference) : PrStep :=
  let t := r.taskId
  match env.getTask t with
  | Except.error msg => ⟨0, [taskErr t msg], [], [PrCall.getTask t]⟩
  | Except.ok none => ⟨0, [taskErr t "Task not found"], [], [PrCall.getTask t]⟩
  | Except.ok (some _) =>
    let msg := prMessage e
    match env.addMessage t msg with
    | Except.error err =>
      ⟨0, [taskErr t err], [], [PrCall.getTask t, PrCall.addMessage t msg]⟩
    | Except.ok _ =>
      match getTargetStage stages (isMergedOf e) (isClosedOf e) (isOpenedOf e) r.action with
      | some tr =>
        if refTruthy tr then
          match env.setStage t tr with
          | Except.error err =>
            ⟨0, [taskErr t err], [],
             [PrCall.getTask t, PrCall.addMessage t msg, PrCall.setStage t tr]⟩
          | Except.ok _ =>
            ⟨1, [], [taskLabel t],
             [PrCall.getTask t, PrCall.addMessage t msg, PrCall.setStage t tr]⟩
        else ⟨1, [], [taskLabel t], [PrCall.getTask t, PrCall.addMessage t msg]⟩
      | none => ⟨1, [], [taskLabel t], [PrCall.getTask t, PrCall.addMessage t msg]⟩

/-- Accumulated state of the PR reference loop. -/
structure PrAcc where
  processed : Nat
  errors : List String
  updated : List String
  calls : List PrCall
deriving DecidableEq

/-- The PR reference loop over a parsed reference list. -/
def prLoop (env : PrEnv) (stages : StageConfig) (e : PrEvent)
    (refs : List TaskReference) : PrAcc :=
  refs.foldl
    (fun acc r =>
      let so := processPrRef env stages e r
      ⟨acc.processed + so.inc, acc.errors ++ so.errs,
       acc.updated ++ so.updated, acc.calls ++ so.calls⟩)
    ⟨0, [], [], []⟩

/-- The PR actions the handler does not ignore. -/
def handledActions : List String := ["opened", "edited", "closed", "reopened"]

/-- The summary-comment body:
`` `Updated Odoo tasks: ${updatedTasks.flatten(", ")}` ``. -/
def summaryBody (updated : List String) : String :=
  "Updated Odoo tasks: " ++ String.intercalate ", " updated

/-- `handlePullRequestEvent`, returning the result together with the call
trace (Odoo calls plus the GitHub comment post). -/
def handlePullRequestEvent (env : PrEnv) (stages : StageConfig) (e : PrEvent)
    (githubConfig : Option GitHubCommentConfig) : ProcessResult × List PrCall :=
  if e.action ∈ handledActions then
    let refs := parseReferences (prText e)
    if refs.isEmpty then (⟨0, []⟩, [])
    else
      let acc := prLoop env stages e refs
      if githubConfig.isSome && !acc.updated.isEmpty && e.action != "closed" then
        let body := summaryBody acc.updated
        match env.postComment e.owner e.repoName e.number body with
        | Except.ok _ =>
          (⟨acc.processed, acc.errors⟩,
           acc.calls ++ [PrCall.postComment e.owner e.repoName e.number body])
        | Except.error err =>
          (⟨acc.processed, acc.errors ++ [s!"GitHub comment failed: {err}"]⟩,
           acc.calls ++ [PrCall.postComment e.owner e.repoName e.number body])
      else (⟨acc.processed, acc.errors⟩, acc.calls)
  else (⟨0, []⟩, [])

/-! ## RPC retry loop (`OdooClient.rpc` in `src/odoo/client.ts`)

One remote call is a loop `for (attempt = 0; attempt <= retries; attempt++)`
over attempt outcomes.  An outcome is either a throw from `fetch`/`json()`
(a `TypeError` or some other error class, with a message), or an HTTP
response with a status code, status text, and — when the body is consulted
— a JSON-RPC body that is an application error or a result. -/

/-- `String.prototype.includes`, on character lists. -/
def leadsWith : Chars → Chars → Bool
  | [], _ => true
  | _ :: _, [] => false
  | a :: as, b :: bs => a == b && leadsWith as bs

/-- Whether `needle` occurs inside `hay`. -/
def containsSeq (hay needle : Chars) : Bool :=
  match hay with
  | [] => needle.isEmpty
  | _ :: t => leadsWith needle hay || containsSeq t needle

/-- The JSON body of a well-formed HTTP response, as the code consumes it:
`json()` can throw (malformed body), or yield an object with an `error`
member, or yield a `result`. -/
inductive RpcJson (T : Type) where
  | parseFail (msg : String)
  | rpcErr (msg : String)
  | result (t : T)
deriving DecidableEq

/-- One attempt's outcome: `fetch` throws (recording whether the error is a
`TypeError` and its message), or a response arrives. -/
inductive RpcAttempt (T : Type) where
  | fetchThrow (isTypeError : Bool) (msg : String)
  | response (code : Nat) (statusText : String) (body : RpcJson T)
deriving DecidableEq

/-- `response.status >= 500 || response.status === 429`. -/
def retryableStatus (code : Nat) : Bool :=
  decide (500 ≤ code) || code == 429

/-- `Response.ok`: status in the range 200–299. -/
def responseOk (code : Nat) : Bool :=
  decide (200 ≤ code) && decide (code ≤ 299)

/-- `` `Odoo HTTP error: ${response.status} ${response.statusText}` `` -/
def httpErrMsg (code : Nat) (st : String) : String := s!"Odoo HTTP error: {code} {st}"

/-- `` `Odoo RPC error: ${json.error.message}` `` -/
def rpcErrMsg (m : String) : String := s!"Odoo RPC error: {m}"

/-- `error instanceof TypeError && error.message.includes("fetch")`. -/
def transientThrow (isTypeError : Bool) (msg : String) : Bool :=
  isTypeError && containsSeq msg.data ['f', 'e', 't', 'c', 'h']

/-- Whether an attempt outcome is retried by the loop. -/
def attemptRetryable {T : Type} : RpcAttempt T → Bool
  | RpcAttempt.fetchThrow te msg => transientThrow te msg
  | RpcAttempt.response code _ _ => retryableStatus code

/-- The error message remembered in `lastError` when an attempt is retried. -/
def attemptErrMsg {T : Type} : RpcAttempt T → String
  | RpcAttempt.fetchThrow _ msg => msg
  | RpcAttempt.response code st _ => httpErrMsg code st

/-- How a non-retried attempt settles the call: thrown errors are re-raised,
a non-ok status raises the HTTP error, an ok status raises the RPC error of
an error body (or the `json()` failure) and otherwise returns the result. -/
def attemptSettle {T : Type} : RpcAttempt T → Except String T
  | RpcAttempt.fetchThrow _ msg => Except.error msg
  | RpcAttempt.response code st body =>
    if responseOk code then
      match body with
      | RpcJson.parseFail m => Except.error m
      | RpcJson.rpcErr m => Except.error (rpcErrMsg m)
      | RpcJson.result t => Except.ok t
    else Except.error (httpErrMsg code st)

/-- `500 * 2 ** (attempt - 1)`: the backoff slept before attempt ≥ 1. -/
def backoffDelay (attempt : Nat) : Nat := 500 * 2 ^ (attempt - 1)

/-- Result of a remote call: the value or raised error, the number of
attempts performed, and the backoff delays slept (in order). -/
structure RpcResult (T : Type) where
  out : Except String T
  attempts : Nat
  delays : List Nat

/-- The retry loop of `OdooClient.rpc`.  `remaining` counts the loop
iterations left (`retries + 1 - attempt`); when it reaches zero the loop
exits and `lastError` (or the fallback message) is raised.  Inside an
iteration, attempt > 0 first sleeps the exponential backoff; a transient
fetch throw or a 5xx/429 status records `lastError` and continues; any
other outcome settles the call immediately. -/
def rpcGo {T : Type} (env : Nat → RpcAttempt T) :
    Nat → Nat → Option String → List Nat → RpcResult T
  | 0, attempt, lastError, delays =>
    ⟨Except.error (lastError.getD "Odoo RPC failed after retries"), attempt, delays⟩
  | remaining + 1, attempt, _lastError, delays =>
    let delays' := if attempt == 0 then delays else delays ++ [backoffDelay attempt]
    match env attempt with
    | RpcAttempt.fetchThrow te msg =>
      if transientThrow te msg then rpcGo env remaining (attempt + 1) (some msg) delays'
      else ⟨Except.error msg, attempt + 1, delays'⟩
    | RpcAttempt.response code st body =>
      if retryableStatus code then
        rpcGo env remaining (attempt + 1) (some (httpErrMsg code st)) delays'
      else if responseOk code then
        match body with
        | RpcJson.parseFail m => ⟨Except.error m, attempt + 1, delays'⟩
        | RpcJson.rpcErr m => ⟨Except.error (rpcErrMsg m), attempt + 1, delays'⟩
        | RpcJson.result t => ⟨Except.ok t, attempt + 1, delays'⟩
      else ⟨Except.error (httpErrMsg code st), attempt + 1, delays'⟩

/-- `OdooClient.rpc` with its `retries` parameter (default 5, i.e. at most
`retries + 1` attempts). -/
def rpcCall {T : Type} (env : Nat → RpcAttempt T) (retries : Nat := 5) : RpcResult T :=
  rpcGo env (retries + 1) 0 none []

/-! ## Stage resolution (`OdooClient.resolveStage` / `setStage`) -/

/-- Abstraction of the two remote operations behind `resolveStage` and
`setStage`: the `project.task.type` search by name, and the
`project.task.write` of `stage_id`. -/
structure StageEnv where
  searchStage : String → Option Int
  write : Int → Int → Except String Bool

/-- Remote calls of the stage operations, as a trace. -/
inductive StageCall where
  | search (stageName : String)
  | write (taskId : Int) (stageId : Int)
deriving DecidableEq

/-- `resolveStage`: a numeric ref is returned unchanged with no remote
call; a name triggers one search, yielding the found id or `null`. -/
def resolveStage (env : StageEnv) : StageRef → Option Int × List StageCall
  | StageRef.id n => (some n, [])
  | StageRef.name s => (env.searchStage s, [StageCall.search s])

/-- How `setStage` can fail: the distinguished
`` `Stage not found: ${ref}` `` throw, or a propagated RPC error. -/
inductive SetStageError where
  | stageNotFound (ref : StageRef)
  | rpcError (msg : String)
deriving DecidableEq

/-- `setStage`: default the ref to `stages.done`, resolve it, throw
`Stage not found` on a failed resolution, else write the resolved id. -/
def setStage (env : StageEnv) (stages : StageConfig) (taskId : Int)
    (stageRef : Option StageRef) : Except SetStageError Bool × List StageCall :=
  let ref := stageRef.getD stages.done
  match resolveStage env ref with
  | (none, calls) => (Except.error (SetStageError.stageNotFound ref), calls)
  | (some sid, calls) =>
    match env.write taskId sid with
    | Except.ok b => (Except.ok b, calls ++ [StageCall.write taskId sid])
    | Except.error m =>
      (Except.error (SetStageError.rpcError m), calls ++ [StageCall.write taskId sid])

/-! ## Properties of the parser's deduplication -/

theorem dedupAux_sublist (l : List TaskReference) :
    ∀ seen, (dedupAux seen l).Sublist l := by
  induction l with
  | nil => intro seen; simp [dedupAux]
  | cons r rs ih =>
    intro seen
    simp only [dedupAux]
    split
    · exact (ih seen).cons r
    · exact (ih (r.taskId :: seen)).cons₂ r

theorem dedupAux_countP_of_mem (l : List TaskReference) :
    ∀ seen, ∀ N : Int, N ∈ seen →
      (dedupAux seen l).countP (fun r => r.taskId == N) = 0 := by
  induction l with
  | nil => intros; simp [dedupAux]
  | cons r rs ih =>
    intro seen N hN
    simp only [dedupAux]
    split
    · exact ih seen N hN
    · rename_i hmem
      rw [List.countP_cons]
      have hne : (r.taskId == N) = false := by
        have : r.taskId ≠ N := fun h => hmem (h ▸ hN)
        simp [this]
      rw [hne, ih (r.taskId :: seen) N (List.mem_cons_of_mem _ hN)]
      simp

theorem dedupAux_countP (l : List TaskReference) :
    ∀ seen, ∀ N : Int, N ∉ seen →
      (dedupAux seen l).countP (fun r => r.taskId == N) =
        if l.any (fun r => r.taskId == N) then 1 else 0 := by
  induction l with
  | nil => intros; simp [dedupAux]
  | cons r rs ih =>
    intro seen N hN
    simp only [dedupAux, List.any_cons]
    split
    · rename_i hmem
      have hne : (r.taskId == N) = false := by
        have : r.taskId ≠ N := fun h => hN (h ▸ hmem)
        simp [this]
      rw [ih seen N hN]
      simp [hne]
    · rename_i hmem
      rw [List.countP_cons]
      by_cases h : r.taskId = N
      · subst h
        rw [dedupAux_countP_of_mem rs _ r.taskId (List.mem_cons_self _ _)]
        simp
      · have hne : (r.taskId == N) = false := by simp [h]
        have hN' : N ∉ r.taskId :: seen := by
          intro hc
          rcases List.mem_cons.1 hc with hc | hc
          · exact h hc.symm
          · exact hN hc
        rw [ih (r.taskId :: seen) N hN']
        simp [hne]

theorem find?_cons_false {α : Type} (p : α → Bool) (a : α) (l : List α)
    (h : p a = false) : List.find? p (a :: l) = List.find? p l := by
  simp [List.find?, h]

theorem find?_cons_true {α : Type} (p : α → Bool) (a : α) (l : List α)
    (h : p a = true) : List.find? p (a :: l) = some a := by
  simp [List.find?, h]

theorem dedupAux_find? (l : List TaskReference) :
    ∀ seen, ∀ N : Int, N ∉ seen →
      (dedupAux seen l).find? (fun r => r.taskId == N) =
        l.find? (fun r => r.taskId == N) := by
  induction l with
  | nil => intros; simp [dedupAux]
  | cons r rs ih =>
    intro seen N hN
    simp only [dedupAux]
    split
    · rename_i hmem
      have hne : (fun x : TaskReference => x.taskId == N) r = false := by
        have : r.taskId ≠ N := fun h => hN (h ▸ hmem)
        simp [this]
      rw [find?_cons_false _ r rs hne, ih seen N hN]
    · rename_i hmem
      by_cases h : r.taskId = N
      · subst h
        rw [find?_cons_true (fun x : TaskReference => x.taskId == r.taskId) r _ (by simp),
          find?_cons_true (fun x : TaskReference => x.taskId == r.taskId) r _ (by simp)]
      · have hne : (fun x : TaskReference => x.taskId == N) r = false := by simp [h]
        have hN' : N ∉ r.taskId :: seen := by
          intro hc
          rcases List.mem_cons.1 hc with hc | hc
          · exact h hc.symm
          · exact hN hc
        rw [find?_cons_false _ r _ hne, find?_cons_false _ r rs hne,
          ih (r.taskId :: seen) N hN']

theorem dedupAux_mem_taskId_not_seen (l : List TaskReference) :
    ∀ seen r, r ∈ dedupAux seen l → r.taskId ∉ seen := by
  induction l with
  | nil => intro seen r hr; simp [dedupAux] at hr
  | cons x xs ih =>
    intro seen r hr
    simp only [dedupAux] at hr
    split at hr
    · exact ih seen r hr
    · rename_i hmem
      rcases List.mem_cons.1 hr with hr | hr
      · subst hr; exact hmem
      · intro hc
        exact ih (x.taskId :: seen) r hr (List.mem_cons_of_mem _ hc)

theorem dedupAux_key_unique (l : List TaskReference) :
    ∀ seen r1 r2, r1 ∈ dedupAux seen l → r2 ∈ dedupAux seen l →
      r1.taskId = r2.taskId → r1 = r2 := by
  induction l with
  | nil => intro seen r1 r2 h1; simp [dedupAux] at h1
  | cons x xs ih =>
    intro seen r1 r2 h1 h2 hkey
    simp only [dedupAux] at h1 h2
    by_cases hmem : x.taskId ∈ seen
    · rw [if_pos hmem] at h1 h2
      exact ih seen r1 r2 h1 h2 hkey
    · rw [if_neg hmem] at h1 h2
      rcases List.mem_cons.1 h1 with h1 | h1 <;> rcases List.mem_cons.1 h2 with h2 | h2
      · rw [h1, h2]
      · exfalso
        subst h1
        exact dedupAux_mem_taskId_not_seen xs _ r2 h2
          (by rw [← hkey]; exact List.mem_cons_self _ _)
      · exfalso
        subst h2
        exact dedupAux_mem_taskId_not_seen xs _ r1 h1
          (by rw [hkey]; exact List.mem_cons_self _ _)
      · exact ih (x.taskId :: seen) r1 r2 h1 h2 hkey

/-- Two references produced by one `parseReferences` call with the same
`taskId` are the same reference. -/
theorem parseReferences_key_unique (text : String) (r1 r2 : TaskReference)
    (h1 : r1 ∈ parseReferences text) (h2 : r2 ∈ parseReferences text)
    (hkey : r1.taskId = r2.taskId) : r1 = r2 :=
  dedupAux_key_unique (rawRefs text) [] r1 r2 h1 h2 hkey

/-- C4.  For every text in which taskId `N` matches more than once, the
parser output has exactly one entry for `N`, that entry is the first raw
match with taskId `N` (so its action is the first occurrence's action, even
if a later occurrence uses a closing keyword), and the whole output is a
sublist of the raw match sequence, i.e. references appear in
first-occurrence order. -/
theorem parse_dedup_first_wins (text : String) (N : Int)
    (h2 : 2 ≤ (rawRefs text).countP (fun r => r.taskId == N)) :
    (parseReferences text).countP (fun r => r.taskId == N) = 1 ∧
    (parseReferences text).find? (fun r => r.taskId == N) =
      (rawRefs text).find? (fun r => r.taskId == N) ∧
    (parseReferences text).Sublist (rawRefs text) := by
  have hraw : parseReferences text = dedupAux [] (rawRefs text) := rfl
  have hany : (rawRefs text).any (fun r => r.taskId == N) = true := by
    rw [List.any_eq_true]
    have hpos : 0 < (rawRefs text).countP (fun r => r.taskId == N) := by omega
    exact List.countP_pos_iff.1 hpos
  refine ⟨?_, ?_, ?_⟩
  · rw [hraw, dedupAux_countP (rawRefs text) [] N (by simp), hany]
    simp
  · rw [hraw, dedupAux_find? (rawRefs text) [] N (by simp)]
  · rw [hraw]; exact dedupAux_sublist (rawRefs text) []

theorem parse_dedup_first_wins_witness :
    (parseReferences "ODP-5 closes ODP-5").countP (fun r => r.taskId == 5) = 1 ∧
    (parseReferences "ODP-5 closes ODP-5").find? (fun r => r.taskId == 5) =
      (rawRefs "ODP-5 closes ODP-5").find? (fun r => r.taskId == 5) ∧
    (parseReferences "ODP-5 closes ODP-5").Sublist (rawRefs "ODP-5 closes ODP-5") :=
  parse_dedup_first_wins "ODP-5 closes ODP-5" 5 (by decide)

/-- C9 counterexample.  The text `ODP-0` parses to a reference whose
`taskId` is `0`, which is not strictly positive. -/
theorem parse_taskId_positive_counterexample :
    ¬ (∀ r ∈ parseReferences "ODP-0", 0 < r.taskId) := by decide

/-- C9 amended.  Every reference produced by `parseReferences` has a
nonnegative integer `taskId` (the base-10 value of the matched digit run);
strict positivity fails exactly on all-zero digit runs such as `ODP-0`. -/
theorem parse_taskId_nonneg (text : String) (r : TaskReference)
    (hr : r ∈ parseReferences text) : 0 ≤ r.taskId := by
  have hsub : r ∈ rawRefs text := (dedupAux_sublist (rawRefs text) []).subset hr
  obtain ⟨m, _, hm⟩ := List.mem_map.1 hsub
  rw [← hm]
  simp only [matchToRef]
  exact Int.ofNat_nonneg _

theorem parse_taskId_nonneg_witness :
    0 ≤ (TaskReference.mk ReferenceAction.ref 3).taskId :=
  parse_taskId_nonneg "ODP-3" ⟨ReferenceAction.ref, 3⟩ (by decide)

/-! ## Keyword separation: which whitespace the `\s+` of the pattern accepts -/

theorem lcEq_self (c : Char) : lcEq c c = true := by simp [lcEq]

theorem stripCI_append (pat : Chars) : ∀ rest, stripCI pat (pat ++ rest) = some rest := by
  induction pat with
  | nil => intro rest; simp [stripCI]
  | cons p ps ih => intro rest; simp [stripCI, lcEq_self, ih]

theorem takeWhile_append_cons {α : Type} (p : α → Bool) (ws : List α) (o : α)
    (t : List α) (hws : ∀ c ∈ ws, p c = true) (ho : p o = false) :
    (ws ++ o :: t).takeWhile p = ws := by
  induction ws with
  | nil => simp [List.takeWhile_cons, ho]
  | cons a as ih =>
    have ha := hws a (List.mem_cons_self a as)
    simp only [List.cons_append, List.takeWhile_cons, ha, if_true]
    rw [ih (fun c hc => hws c (List.mem_cons_of_mem a hc))]

theorem dropWhile_append_cons {α : Type} (p : α → Bool) (ws : List α) (o : α)
    (t : List α) (hws : ∀ c ∈ ws, p c = true) (ho : p o = false) :
    (ws ++ o :: t).dropWhile p = o :: t := by
  induction ws with
  | nil => simp [List.dropWhile_cons, ho]
  | cons a as ih =>
    have ha := hws a (List.mem_cons_self a as)
    simp only [List.cons_append, List.dropWhile_cons, ha, if_true]
    exact ih (fun c hc => hws c (List.mem_cons_of_mem a hc))

/-- A keyword alternative matches its own literal occurrence followed by any
nonempty run of `\s` characters and the identifier. -/
theorem keywordMatch_self (kw ws : Chars) (hne : ws ≠ [])
    (hsp : ∀ c ∈ ws, isJsSpace c = true) :
    keywordMatch kw (kw ++ ws ++ ['O', 'D', 'P', '-', '7']) = some (['7'], []) := by
  have hempty : ws.isEmpty = false := by
    cases ws with
    | nil => exact absurd rfl hne
    | cons a as => rfl
  simp only [keywordMatch, List.append_assoc, stripCI_append]
  rw [takeWhile_append_cons isJsSpace ws 'O' _ hsp (by decide),
    dropWhile_append_cons isJsSpace ws 'O' _ hsp (by decide), hempty]
  decide

theorem scanFuel_nil (fuel : Nat) : scanFuel fuel [] = [] := by
  cases fuel <;> rfl

theorem scanFuel_cons (fuel : Nat) (c : Char) (cs : Chars) :
    scanFuel (fuel + 1) (c :: cs) =
      match matchAt (c :: cs) with
      | some (m, rest) => m :: scanFuel fuel rest
      | none => scanFuel fuel cs := rfl

/-- Scanning `keyword ++ whitespace ++ ODP-7` yields the single raw match
with that keyword in group 1, for every keyword alternative and every
nonempty all-`\s` separator. -/
theorem scan_keyword_ws (kw : Chars) (hkw : kw ∈ allKeywords) (ws : Chars)
    (hne : ws ≠ []) (hsp : ∀ c ∈ ws, isJsSpace c = true) :
    scanFuel (kw ++ ws ++ ['O', 'D', 'P', '-', '7']).length
        (kw ++ ws ++ ['O', 'D', 'P', '-', '7']) =
      [⟨some kw, ['7']⟩] := by
  have hlcf : lcEq 'c' 'f' = false := by decide
  have hlcr : lcEq 'c' 'r' = false := by decide
  have hlfr : lcEq 'f' 'r' = false := by decide
  have hlsf : lcEq 's' 'f' = false := by decide
  have hlse : lcEq 's' 'e' = false := by decide
  have hself := keywordMatch_self kw ws hne hsp
  simp only [allKeywords, closeKeywords, refKeywords, List.mem_append,
    List.mem_cons, List.mem_singleton, List.not_mem_nil, or_false] at hkw
  rcases hkw with (h | h | h) | (h | h) <;> subst h <;>
      simp only [List.cons_append, List.nil_append] at hself ⊢
  · have hmat : matchAt ('c' :: 'l' :: 'o' :: 's' :: 'e' :: 's' ::
        (ws ++ ['O', 'D', 'P', '-', '7'])) =
        some (⟨some ['c', 'l', 'o', 's', 'e', 's'], ['7']⟩, []) := by
      simp only [matchAt, tryKeywords, allKeywords, closeKeywords, refKeywords]
      simp [hself]
    simp only [List.length_cons]
    rw [scanFuel_cons, hmat]
    simp [scanFuel_nil]
  · have h1 : keywordMatch ['c', 'l', 'o', 's', 'e', 's']
        ('f' :: 'i' :: 'x' :: 'e' :: 's' :: (ws ++ ['O', 'D', 'P', '-', '7'])) = none := by
      simp [keywordMatch, stripCI, hlcf]
    have hmat : matchAt ('f' :: 'i' :: 'x' :: 'e' :: 's' ::
        (ws ++ ['O', 'D', 'P', '-', '7'])) =
        some (⟨some ['f', 'i', 'x', 'e', 's'], ['7']⟩, []) := by
      simp only [matchAt, tryKeywords, allKeywords, closeKeywords, refKeywords]
      simp [h1, hself]
    simp only [List.length_cons]
    rw [scanFuel_cons, hmat]
    simp [scanFuel_nil]
  · have h1 : keywordMatch ['c', 'l', 'o', 's', 'e', 's']
        ('r' :: 'e' :: 's' :: 'o' :: 'l' :: 'v' :: 'e' :: 's' ::
          (ws ++ ['O', 'D', 'P', '-', '7'])) = none := by
      simp [keywordMatch, stripCI, hlcr]
    have h2 : keywordMatch ['f', 'i', 'x', 'e', 's']
        ('r' :: 'e' :: 's' :: 'o' :: 'l' :: 'v' :: 'e' :: 's' ::
          (ws ++ ['O', 'D', 'P', '-', '7'])) = none := by
      simp [keywordMatch, stripCI, hlfr]
    have hmat : matchAt ('r' :: 'e' :: 's' :: 'o' :: 'l' :: 'v' :: 'e' :: 's' ::
        (ws ++ ['O', 'D', 'P', '-', '7'])) =
        some (⟨some ['r', 'e', 's', 'o', 'l', 'v', 'e', 's'], ['7']⟩, []) := by
      simp only [matchAt, tryKeywords, allKeywords, closeKeywords, refKeywords]
      simp [h1, h2, hself]
    simp only [List.length_cons]
    rw [scanFuel_cons, hmat]
    simp [scanFuel_nil]
  · have h1 : keywordMatch ['c', 'l', 'o', 's', 'e', 's']
        ('r' :: 'e' :: 'f' :: 's' :: (ws ++ ['O', 'D', 'P', '-', '7'])) = none := by
      simp [keywordMatch, stripCI, hlcr]
    have h2 : keywordMatch ['f', 'i', 'x', 'e', 's']
        ('r' :: 'e' :: 'f' :: 's' :: (ws ++ ['O', 'D', 'P', '-', '7'])) = none := by
      simp [keywordMatch, stripCI, hlfr]
    have h3 : keywordMatch ['r', 'e', 's', 'o', 'l', 'v', 'e', 's']
        ('r' :: 'e' :: 'f' :: 's' :: (ws ++ ['O', 'D', 'P', '-', '7'])) = none := by
      simp [keywordMatch, stripCI, lcEq_self, hlsf]
    have hmat : matchAt ('r' :: 'e' :: 'f' :: 's' :: (ws ++ ['O', 'D', 'P', '-', '7'])) =
        some (⟨some ['r', 'e', 'f', 's'], ['7']⟩, []) := by
      simp only [matchAt, tryKeywords, allKeywords, closeKeywords, refKeywords]
      simp [h1, h2, h3, hself]
    simp only [List.length_cons]
    rw [scanFuel_cons, hmat]
    simp [scanFuel_nil]
  · have h1 : keywordMatch ['c', 'l', 'o', 's', 'e', 's']
        ('r' :: 'e' :: 'f' :: 'e' :: 'r' :: 'e' :: 'n' :: 'c' :: 'e' :: 's' ::
          (ws ++ ['O', 'D', 'P', '-', '7'])) = none := by
      simp [keywordMatch, stripCI, hlcr]
    have h2 : keywordMatch ['f', 'i', 'x', 'e', 's']
        ('r' :: 'e' :: 'f' :: 'e' :: 'r' :: 'e' :: 'n' :: 'c' :: 'e' :: 's' ::
          (ws ++ ['O', 'D', 'P', '-', '7'])) = none := by
      simp [keywordMatch, stripCI, hlfr]
    have h3 : keywordMatch ['r', 'e', 's', 'o', 'l', 'v', 'e', 's']
        ('r' :: 'e' :: 'f' :: 'e' :: 'r' :: 'e' :: 'n' :: 'c' :: 'e' :: 's' ::
          (ws ++ ['O', 'D', 'P', '-', '7'])) = none := by
      simp [keywordMatch, stripCI, lcEq_self, hlsf]
    have h4 : keywordMatch ['r', 'e', 'f', 's']
        ('r' :: 'e' :: 'f' :: 'e' :: 'r' :: 'e' :: 'n' :: 'c' :: 'e' :: 's' ::
          (ws ++ ['O', 'D', 'P', '-', '7'])) = none := by
      simp [keywordMatch, stripCI, lcEq_self, hlse]
    have hmat : matchAt ('r' :: 'e' :: 'f' :: 'e' :: 'r' :: 'e' :: 'n' :: 'c' :: 'e' :: 's' ::
        (ws ++ ['O', 'D', 'P', '-', '7'])) =
        some (⟨some ['r', 'e', 'f', 'e', 'r', 'e', 'n', 'c', 'e', 's'], ['7']⟩, []) := by
      simp only [matchAt, tryKeywords, allKeywords, closeKeywords, refKeywords]
      simp [h1, h2, h3, h4, hself]
    simp only [List.length_cons]
    rw [scanFuel_cons, hmat]
    simp [scanFuel_nil]

/-- C8 counterexample.  In `"closes\nODP-7"` the keyword and the identifier
are separated by a line break, yet the reference is classified CLOSE, not
the default REF the claim predicts: the `\s` class of the pattern's `\s+`
matches line breaks. -/
theorem parse_keyword_newline_counterexample :
    parseReferences "closes\nODP-7" = [⟨ReferenceAction.close, 7⟩] ∧
    ¬ parseReferences "closes\nODP-7" = [⟨ReferenceAction.ref, 7⟩] := by decide

/-- C8 amended.  A closing or referencing keyword classifies a following
identifier whenever it is separated from it by any nonempty run of
whitespace characters in the JavaScript `\s` class — including line breaks,
not only same-line whitespace; an identifier without a keyword gets the
default action REF. -/
theorem parse_keyword_whitespace (kw : Chars) (hkw : kw ∈ allKeywords) (ws : Chars)
    (hne : ws ≠ []) (hsp : ∀ c ∈ ws, isJsSpace c = true) :
    parseRefsChars (kw ++ ws ++ ['O', 'D', 'P', '-', '7']) =
      [⟨if kw ∈ closeKeywords then ReferenceAction.close else ReferenceAction.ref, 7⟩] ∧
    parseRefsChars ['O', 'D', 'P', '-', '7'] = [⟨ReferenceAction.ref, 7⟩] := by
  constructor
  · show dedupAux [] ((scanFuel _ _).map matchToRef) = _
    rw [scan_keyword_ws kw hkw ws hne hsp]
    simp [matchToRef, dedupAux, digitsVal]
  · decide

theorem parse_keyword_whitespace_witness :
    parseRefsChars (['c', 'l', 'o', 's', 'e', 's'] ++ ['\n'] ++ ['O', 'D', 'P', '-', '7']) =
      [⟨if ['c', 'l', 'o', 's', 'e', 's'] ∈ closeKeywords then ReferenceAction.close
        else ReferenceAction.ref, 7⟩] ∧
    parseRefsChars ['O', 'D', 'P', '-', '7'] = [⟨ReferenceAction.ref, 7⟩] :=
  parse_keyword_whitespace ['c', 'l', 'o', 's', 'e', 's'] (by decide) ['\n']
    (by decide) (by decide)

/-! ## The push fold: lookup/insert lemmas and the merge rule -/

theorem lookup_setEntry_self (m : AllRefs) (k : Int) (v : CommitReference) :
    lookupEntry (setEntry m k v) k = some v := by
  induction m with
  | nil => simp [setEntry, lookupEntry]
  | cons p rest ih =>
    obtain ⟨k', w⟩ := p
    simp only [setEntry]
    by_cases h : k' = k
    · rw [if_pos h]; simp [lookupEntry]
    · rw [if_neg h]; simp only [lookupEntry, if_neg h]; exact ih

theorem lookup_setEntry_other (m : AllRefs) (k t : Int) (v : CommitReference)
    (h : k ≠ t) : lookupEntry (setEntry m k v) t = lookupEntry m t := by
  induction m with
  | nil => simp [setEntry, lookupEntry, h]
  | cons p rest ih =>
    obtain ⟨k', w⟩ := p
    simp only [setEntry]
    by_cases h' : k' = k
    · rw [if_pos h']
      simp only [lookupEntry, if_neg h, if_neg (h' ▸ h)]
    · rw [if_neg h']
      simp only [lookupEntry]
      by_cases h'' : k' = t
      · rw [if_pos h'', if_pos h'']
      · rw [if_neg h'', if_neg h'']; exact ih

theorem lookupEntry_mem (m : AllRefs) (t : Int) (cr : CommitReference)
    (h : lookupEntry m t = some cr) : (t, cr) ∈ m := by
  induction m with
  | nil => simp [lookupEntry] at h
  | cons p rest ih =>
    obtain ⟨k, v⟩ := p
    simp only [lookupEntry] at h
    by_cases hk : k = t
    · rw [if_pos hk] at h
      subst hk
      cases h
      exact List.mem_cons_self _ _
    · rw [if_neg hk] at h
      exact List.mem_cons_of_mem _ (ih h)

theorem foldStep_lookup_other (m : AllRefs) (c : Commit) (r : TaskReference)
    (t : Int) (h : r.taskId ≠ t) :
    lookupEntry (foldStep m c r) t = lookupEntry m t := by
  cases hl : lookupEntry m r.taskId <;> simp only [foldStep, hl]
  · exact lookup_setEntry_other m r.taskId t _ h
  · by_cases hc : r.action = ReferenceAction.close
    · rw [if_pos hc]
      exact lookup_setEntry_other m r.taskId t _ h
    · rw [if_neg hc]

theorem foldList_lookup_other (l : List TaskReference) (c : Commit) (t : Int) :
    ∀ m : AllRefs, (∀ r ∈ l, r.taskId ≠ t) →
      lookupEntry (l.foldl (fun acc r => foldStep acc c r) m) t = lookupEntry m t := by
  induction l with
  | nil => intro m _; rfl
  | cons x xs ih =>
    intro m hne
    rw [List.foldl_cons, ih (foldStep m c x) (fun r hr => hne r (List.mem_cons_of_mem x hr)),
      foldStep_lookup_other m c x t (hne x (List.mem_cons_self x xs))]

theorem foldList_insert (l : List TaskReference) (c : Commit) (t : Int)
    (r : TaskReference) :
    ∀ m : AllRefs, l.Pairwise (fun a b => a.taskId ≠ b.taskId) → r ∈ l →
      r.taskId = t → lookupEntry m t = none →
      lookupEntry (l.foldl (fun acc r => foldStep acc c r) m) t =
        some ⟨r, shortShaOf c, c.url, firstLine c.message, c.authorEmail⟩ := by
  induction l with
  | nil => intro m _ hr; simp at hr
  | cons x xs ih =>
    intro m hpw hr ht hm
    have hpw' := (List.pairwise_cons.1 hpw).2
    have hxall := (List.pairwise_cons.1 hpw).1
    rcases List.mem_cons.1 hr with hr | hr
    · subst hr
      subst ht
      rw [List.foldl_cons,
        foldList_lookup_other xs c r.taskId _ (fun b hb hc => hxall b hb hc.symm)]
      simp only [foldStep, hm]
      exact lookup_setEntry_self m r.taskId _
    · have hxt : x.taskId ≠ t := fun hc => (hxall r hr) (hc.trans ht.symm)
      rw [List.foldl_cons]
      exact ih (foldStep m c x) hpw' hr ht
        ((foldStep_lookup_other m c x t hxt).trans hm)

theorem foldList_update (l : List TaskReference) (c : Commit) (t : Int)
    (r : TaskReference) :
    ∀ (m : AllRefs) (e : CommitReference),
      l.Pairwise (fun a b => a.taskId ≠ b.taskId) → r ∈ l → r.taskId = t →
      lookupEntry m t = some e →
      lookupEntry (l.foldl (fun acc r => foldStep acc c r) m) t =
        some (if r.action = ReferenceAction.close then
          ⟨(if e.ref.action = ReferenceAction.close then e.ref else r),
           shortShaOf c, c.url, firstLine c.message, c.authorEmail⟩
        else e) := by
  induction l with
  | nil => intro m e _ hr; simp at hr
  | cons x xs ih =>
    intro m e hpw hr ht hm
    have hpw' := (List.pairwise_cons.1 hpw).2
    have hxall := (List.pairwise_cons.1 hpw).1
    rcases List.mem_cons.1 hr with hr | hr
    · subst hr
      subst ht
      rw [List.foldl_cons,
        foldList_lookup_other xs c r.taskId _ (fun b hb hc => hxall b hb hc.symm)]
      simp only [foldStep, hm]
      by_cases hc : r.action = ReferenceAction.close
      · rw [if_pos hc, if_pos hc]
        exact lookup_setEntry_self m r.taskId _
      · rw [if_neg hc, if_neg hc]
        exact hm
    · have hxt : x.taskId ≠ t := fun hc => (hxall r hr) (hc.trans ht.symm)
      rw [List.foldl_cons]
      exact ih (foldStep m c x) e hpw' hr ht
        ((foldStep_lookup_other m c x t hxt).trans hm)

theorem dedupAux_pairwise (l : List TaskReference) :
    ∀ seen, (dedupAux seen l).Pairwise (fun a b => a.taskId ≠ b.taskId) := by
  induction l with
  | nil => intro seen; simp [dedupAux]
  | cons r rs ih =>
    intro seen
    simp only [dedupAux]
    split
    · exact ih seen
    · refine List.pairwise_cons.2 ⟨?_, ih (r.taskId :: seen)⟩
      intro b hb hcontra
      exact dedupAux_mem_taskId_not_seen rs _ b hb (hcontra ▸ List.mem_cons_self _ _)

theorem parseReferences_pairwise (text : String) :
    (parseReferences text).Pairwise (fun a b => a.taskId ≠ b.taskId) :=
  dedupAux_pairwise (rawRefs text) []

/-- The concrete commits of the C1 counterexample: the second commit
mentions the same task with a plain reference. -/
def commitC1a : Commit := ⟨"aaaaaaa1111", "ODP-1", "https://c/a", some "a@x"⟩

def commitC1b : Commit := ⟨"bbbbbbb2222", "ODP-1", "https://c/b", some "b@x"⟩

/-- C1 counterexample.  When a later commit in the same push references an
already-present task with a plain (REF) mention, the stored commit metadata
is NOT overwritten: after folding the push `[commitC1a, commitC1b]`, task 1
still carries the first commit's hash/url/title/author, not the second
commit's URL as the claim predicts. -/
theorem push_fold_overwrite_counterexample :
    lookupEntry (buildAllReferences [commitC1a, commitC1b]) 1 =
      some ⟨⟨ReferenceAction.ref, 1⟩, "aaaaaaa", "https://c/a", "ODP-1", some "a@x"⟩ ∧
    ¬ (lookupEntry (buildAllReferences [commitC1a, commitC1b]) 1).map
        (fun cr => cr.commitUrl) = some "https://c/b" := by decide

/-- C1 amended.  For a `taskId` already present in the fold, a later
reference overwrites the commit metadata only when the new reference's
action is CLOSE; a later plain (REF) mention leaves the entry — metadata
and action — entirely unchanged.  When the overwrite happens, the stored
reference keeps the existing CLOSE action if it had one, so the recorded
action is CLOSE iff the existing or the new reference has action CLOSE. -/
theorem push_fold_overwrite_amended (m : AllRefs) (c : Commit)
    (r : TaskReference) (e : CommitReference)
    (he : lookupEntry m r.taskId = some e) :
    (r.action = ReferenceAction.ref → foldStep m c r = m) ∧
    (r.action = ReferenceAction.close →
      lookupEntry (foldStep m c r) r.taskId =
        some ⟨(if e.ref.action = ReferenceAction.close then e.ref else r),
          shortShaOf c, c.url, firstLine c.message, c.authorEmail⟩) ∧
    (∀ cr, lookupEntry (foldStep m c r) r.taskId = some cr →
      (cr.ref.action = ReferenceAction.close ↔
        (e.ref.action = ReferenceAction.close ∨ r.action = ReferenceAction.close))) := by
  refine ⟨?_, ?_, ?_⟩
  · intro hr
    simp [foldStep, he, hr]
  · intro hr
    simp only [foldStep, he, if_pos hr]
    exact lookup_setEntry_self m r.taskId _
  · intro cr hcr
    by_cases hc : r.action = ReferenceAction.close
    · simp only [foldStep, he, if_pos hc] at hcr
      rw [lookup_setEntry_self m r.taskId _] at hcr
      cases hcr
      by_cases hec : e.ref.action = ReferenceAction.close
      · simp [hec]
      · simp [hec, hc]
    · simp only [foldStep, he, if_neg hc] at hcr
      cases hcr
      have hr : r.action = ReferenceAction.ref := by
        cases hra : r.action
        · exact absurd hra hc
        · rfl
      simp [hr, hc]

theorem push_fold_overwrite_amended_witness :
    let eC1 : CommitReference :=
      ⟨⟨ReferenceAction.ref, 1⟩, "aaaaaaa", "https://c/a", "ODP-1", some "a@x"⟩
    ((TaskReference.mk ReferenceAction.close 1).action = ReferenceAction.ref →
      foldStep [(1, eC1)] commitC1b ⟨ReferenceAction.close, 1⟩ = [(1, eC1)]) ∧
    ((TaskReference.mk ReferenceAction.close 1).action = ReferenceAction.close →
      lookupEntry (foldStep [(1, eC1)] commitC1b ⟨ReferenceAction.close, 1⟩) 1 =
        some ⟨(if eC1.ref.action = ReferenceAction.close then eC1.ref
               else ⟨ReferenceAction.close, 1⟩),
          shortShaOf commitC1b, commitC1b.url, firstLine commitC1b.message,
          commitC1b.authorEmail⟩) ∧
    (∀ cr, lookupEntry (foldStep [(1, eC1)] commitC1b ⟨ReferenceAction.close, 1⟩) 1 =
        some cr →
      (cr.ref.action = ReferenceAction.close ↔
        (eC1.ref.action = ReferenceAction.close ∨
         (TaskReference.mk ReferenceAction.close 1).action = ReferenceAction.close))) :=
  push_fold_overwrite_amended
    [(1, ⟨⟨ReferenceAction.ref, 1⟩, "aaaaaaa", "https://c/a", "ODP-1", some "a@x"⟩)]
    commitC1b ⟨ReferenceAction.close, 1⟩
    ⟨⟨ReferenceAction.ref, 1⟩, "aaaaaaa", "https://c/a", "ODP-1", some "a@x"⟩ (by decide)

/-! ## Push processing trace -/

theorem pushFoldAux_trace (env : PushEnv) :
    ∀ (l : AllRefs) (acc : ProcessResult × List OdooCall),
      (l.foldl
        (fun acc p =>
          let so := processEntry env p.1 p.2
          (⟨acc.1.processed + so.inc, acc.1.errors ++ so.errs⟩, acc.2 ++ so.calls)) acc).2 =
      acc.2 ++ (l.map fun p => (processEntry env p.1 p.2).calls).flatten := by
  intro l
  induction l with
  | nil => intro acc; simp
  | cons p ps ih =>
    intro acc
    rw [List.foldl_cons, ih]
    simp [List.append_assoc]

theorem handlePushEvent_trace (env : PushEnv) (commits : List Commit) :
    (handlePushEvent env commits).2 =
      ((buildAllReferences commits).map fun p => (processEntry env p.1 p.2).calls).flatten :=
  pushFoldAux_trace env (buildAllReferences commits) (⟨0, []⟩, [])

theorem push_calls_mem_trace (env : PushEnv) (commits : List Commit) (t : Int)
    (cr : CommitReference) (h : (t, cr) ∈ buildAllReferences commits)
    (x : OdooCall) (hx : x ∈ (processEntry env t cr).calls) :
    x ∈ (handlePushEvent env commits).2 := by
  rw [handlePushEvent_trace]
  exact List.mem_flatten.2 ⟨(processEntry env t cr).calls,
    List.mem_map.2 ⟨(t, cr), h, rfl⟩, hx⟩

theorem processEntry_close_setStage (env : PushEnv) (t : Int)
    (cr : CommitReference) (hact : cr.ref.action = ReferenceAction.close)
    (hget : env.getTask t = Except.ok (some ()))
    (hmsg : ∃ n, env.addMessage t (pushMessage cr) cr.authorEmail = Except.ok n) :
    OdooCall.setStageDefault t ∈ (processEntry env t cr).calls := by
  obtain ⟨n, hn⟩ := hmsg
  simp only [processEntry, hget, hn, hact, if_pos]
  cases env.setStage t <;> simp

/-- C3.  A push with two commits referencing the same task, one with a bare
mention and one with a closing keyword, in either order, records action
CLOSE for that task after the fold; consequently, when the task exists and
the message post succeeds, the processing loop requests the default (done)
stage transition for that task. -/
theorem push_close_sticky (c1 c2 : Commit) (t : Int) (env : PushEnv)
    (h : (⟨ReferenceAction.ref, t⟩ ∈ parseReferences c1.message ∧
          ⟨ReferenceAction.close, t⟩ ∈ parseReferences c2.message) ∨
         (⟨ReferenceAction.close, t⟩ ∈ parseReferences c1.message ∧
          ⟨ReferenceAction.ref, t⟩ ∈ parseReferences c2.message)) :
    (∃ cr, lookupEntry (buildAllReferences [c1, c2]) t = some cr ∧
       cr.ref = ⟨ReferenceAction.close, t⟩) ∧
    (env.getTask t = Except.ok (some ()) →
     (∀ msg em, ∃ n, env.addMessage t msg em = Except.ok n) →
     OdooCall.setStageDefault t ∈ (handlePushEvent env [c1, c2]).2) := by
  have hbuild : buildAllReferences [c1, c2] =
      (parseReferences c2.message).foldl (fun acc r => foldStep acc c2 r)
        ((parseReferences c1.message).foldl (fun acc r => foldStep acc c1 r) []) := rfl
  have hentry : ∃ cr, lookupEntry (buildAllReferences [c1, c2]) t = some cr ∧
      cr.ref = ⟨ReferenceAction.close, t⟩ := by
    rcases h with ⟨h1, h2⟩ | ⟨h1, h2⟩
    · have hm1 : lookupEntry
          ((parseReferences c1.message).foldl (fun acc r => foldStep acc c1 r) []) t =
          some ⟨⟨ReferenceAction.ref, t⟩, shortShaOf c1, c1.url,
            firstLine c1.message, c1.authorEmail⟩ :=
        foldList_insert (parseReferences c1.message) c1 t ⟨ReferenceAction.ref, t⟩ []
          (parseReferences_pairwise c1.message) h1 rfl rfl
      have hm2 := foldList_update (parseReferences c2.message) c2 t
        ⟨ReferenceAction.close, t⟩ _ _ (parseReferences_pairwise c2.message) h2 rfl hm1
      rw [hbuild]
      refine ⟨_, hm2, ?_⟩
      simp
    · have hm1 : lookupEntry
          ((parseReferences c1.message).foldl (fun acc r => foldStep acc c1 r) []) t =
          some ⟨⟨ReferenceAction.close, t⟩, shortShaOf c1, c1.url,
            firstLine c1.message, c1.authorEmail⟩ :=
        foldList_insert (parseReferences c1.message) c1 t ⟨ReferenceAction.close, t⟩ []
          (parseReferences_pairwise c1.message) h1 rfl rfl
      have hm2 := foldList_update (parseReferences c2.message) c2 t
        ⟨ReferenceAction.ref, t⟩ _ _ (parseReferences_pairwise c2.message) h2 rfl hm1
      rw [hbuild]
      refine ⟨_, hm2, ?_⟩
      simp
  refine ⟨hentry, ?_⟩
  intro hget hmsg
  obtain ⟨cr, hcr, hact⟩ := hentry
  exact push_calls_mem_trace env [c1, c2] t cr (lookupEntry_mem _ t cr hcr) _
    (processEntry_close_setStage env t cr (by rw [hact]) hget
      (hmsg (pushMessage cr) cr.authorEmail))

def envC3 : PushEnv :=
  { getTask := fun _ => Except.ok (some ()),
    addMessage := fun _ _ _ => Except.ok 1,
    setStage := fun _ => Except.ok true }

def commitC3a : Commit := ⟨"aaaaaaa1111", "ODP-9", "https://c/a", none⟩

def commitC3b : Commit := ⟨"bbbbbbb2222", "Closes ODP-9", "https://c/b", none⟩

theorem push_close_sticky_witness :
    (∃ cr, lookupEntry (buildAllReferences [commitC3a, commitC3b]) 9 = some cr ∧
       cr.ref = ⟨ReferenceAction.close, 9⟩) ∧
    OdooCall.setStageDefault 9 ∈ (handlePushEvent envC3 [commitC3a, commitC3b]).2 := by
  have h := push_close_sticky commitC3a commitC3b 9 envC3
    (Or.inl ⟨by decide, by decide⟩)
  exact ⟨h.1, h.2 rfl (fun msg em => ⟨1, rfl⟩)⟩

/-! ## Push processing: stage-set failure after a successful message post -/

def envC2 : PushEnv :=
  { getTask := fun _ => Except.ok (some ()),
    addMessage := fun _ _ _ => Except.ok 1,
    setStage := fun _ => Except.error "boom" }

def commitC2 : Commit := ⟨"abc1234567", "Closes ODP-1", "https://c/1", some "a@x"⟩

/-- C2 counterexample.  For a CLOSE reference whose task exists and whose
message post succeeds but whose stage set throws, the failure is recorded
as an error and the message post is not rolled back — but `processed` is 0,
not 1: the `result.processed++` sits after the `setStage` call, so the
reference is NOT counted when the stage set fails. -/
theorem push_stage_failure_counterexample :
    (handlePushEvent envC2 [commitC2]).1.processed = 0 ∧
    ¬ (handlePushEvent envC2 [commitC2]).1.processed = 1 ∧
    (handlePushEvent envC2 [commitC2]).1.errors = ["ODP-1: boom"] ∧
    (handlePushEvent envC2 [commitC2]).2.countP
      (fun c => match c with | OdooCall.addMessage _ _ _ => true | _ => false) = 1 := by
  decide

/-- C2 amended.  For a CLOSE reference whose task exists and whose message
post succeeds, a stage-set failure is caught and recorded as an error
string, and the already-performed message post is not rolled back (the
`addMessage` call stays in the trace) — but the reference is not counted:
`processed` stays 0 for it, because the increment comes after `setStage`. -/
theorem push_stage_failure_amended (env : PushEnv) (commits : List Commit)
    (t : Int) (cr : CommitReference) (e : String) (n : Nat)
    (hbuild : buildAllReferences commits = [(t, cr)])
    (hact : cr.ref.action = ReferenceAction.close)
    (hget : env.getTask t = Except.ok (some ()))
    (hmsg : env.addMessage t (pushMessage cr) cr.authorEmail = Except.ok n)
    (hstage : env.setStage t = Except.error e) :
    handlePushEvent env commits =
      (⟨0, [taskErr t e]⟩,
       [OdooCall.getTask t, OdooCall.addMessage t (pushMessage cr) cr.authorEmail,
        OdooCall.setStageDefault t]) := by
  unfold handlePushEvent
  rw [hbuild]
  simp only [List.foldl_cons, List.foldl_nil]
  simp [processEntry, hget, hmsg, hact, hstage]

theorem push_stage_failure_amended_witness :
    handlePushEvent envC2 [commitC2] =
      (⟨0, [taskErr 1 "boom"]⟩,
       [OdooCall.getTask 1,
        OdooCall.addMessage 1
          (pushMessage ⟨⟨ReferenceAction.close, 1⟩, "abc1234", "https://c/1",
            "Closes ODP-1", some "a@x"⟩) (some "a@x"),
        OdooCall.setStageDefault 1]) :=
  push_stage_failure_amended envC2 [commitC2] 1
    ⟨⟨ReferenceAction.close, 1⟩, "abc1234", "https://c/1", "Closes ODP-1", some "a@x"⟩
    "boom" 1 (by decide) (by decide) rfl rfl rfl

/-! ## Pull-request stage selection -/

/-- Recognizer for `setStage` calls in a PR trace. -/
def isSetStage : PrCall → Bool
  | PrCall.setStage _ _ => true
  | _ => false

def envC5 : PrEnv :=
  { getTask := fun _ => Except.ok (some ()),
    addMessage := fun _ _ => Except.ok 1,
    setStage := fun _ _ => Except.ok true,
    postComment := fun _ _ _ _ => Except.ok () }

def eventC5a : PrEvent :=
  ⟨"closed", 42, "Closes ODP-1", none, "https://pr/42", true, "own", "repo"⟩

def eventC5b : PrEvent :=
  ⟨"closed", 42, "Refs ODP-1", none, "https://pr/42", false, "own", "repo"⟩

/-- C5 counterexample.  Stage selection and application go through
JavaScript truthiness, not mere configuration: with `done = 0`, a merged PR
with a CLOSE reference performs NO `setStage` call (the claim predicts
exactly one, to the done stage); with `canceled = 0` configured, a
closed-unmerged PR also performs no `setStage` call (the claim predicts one
to the canceled stage). -/
theorem pr_stage_selection_counterexample :
    ¬ ((handlePullRequestEvent envC5 ⟨StageRef.id 0, none, none⟩ eventC5a none).2.countP
        isSetStage = 1) ∧
    ¬ ((handlePullRequestEvent envC5 ⟨StageRef.id 5, none, some (StageRef.id 0)⟩ eventC5b
        none).2.countP isSetStage = 1) := by
  decide

/-- C5 amended.  Target-stage selection follows the priority order of the
claim with "configured" strengthened to "truthy" (numeric id ≠ 0, name ≠ ""):
a merged PR classifies as neither closed-unmerged nor opened; a merged
CLOSE picks `stages.done` regardless of the other stages; a merged plain
REF picks no stage; closed-unmerged picks a truthy `canceled`; opened picks
a truthy `inProgress`.  At the call site the selected stage is applied only
if it is itself truthy: a merged CLOSE reference with truthy `done`, whose
task exists and whose calls succeed, performs exactly one `setStage`, to
`stages.done`, and no other stage call. -/
theorem pr_stage_selection_amended (stages : StageConfig) (e : PrEvent)
    (env : PrEnv) (r : TaskReference) (n : Nat) (b : Bool) :
    (isMergedOf e = true → isClosedOf e = false ∧ isOpenedOf e = false) ∧
    (getTargetStage stages true false false ReferenceAction.close = some stages.done) ∧
    (getTargetStage stages true false false ReferenceAction.ref = none) ∧
    (∀ a, optTruthy stages.canceled = true →
      getTargetStage stages false true false a = stages.canceled) ∧
    (∀ a, optTruthy stages.inProgress = true →
      getTargetStage stages false false true a = stages.inProgress) ∧
    (isMergedOf e = true → r.action = ReferenceAction.close →
     refTruthy stages.done = true →
     env.getTask r.taskId = Except.ok (some ()) →
     env.addMessage r.taskId (prMessage e) = Except.ok n →
     env.setStage r.taskId stages.done = Except.ok b →
     processPrRef env stages e r =
       ⟨1, [], [taskLabel r.taskId],
        [PrCall.getTask r.taskId, PrCall.addMessage r.taskId (prMessage e),
         PrCall.setStage r.taskId stages.done]⟩) := by
  refine ⟨?_, ?_, ?_, ?_, ?_, ?_⟩
  · intro h
    simp only [isMergedOf, Bool.and_eq_true, beq_iff_eq] at h
    obtain ⟨ha, hm⟩ := h
    constructor
    · simp [isClosedOf, ha, hm]
    · simp [isOpenedOf, ha]
  · simp [getTargetStage]
  · simp [getTargetStage]
  · intro a hc
    simp [getTargetStage, hc]
  · intro a hc
    simp [getTargetStage, hc]
  · intro hm hract htr hget hmsg hset
    have hcl : isClosedOf e = false := by
      simp only [isMergedOf, Bool.and_eq_true, beq_iff_eq] at hm
      simp [isClosedOf, hm.1, hm.2]
    have hop : isOpenedOf e = false := by
      simp only [isMergedOf, Bool.and_eq_true, beq_iff_eq] at hm
      simp [isOpenedOf, hm.1]
    have htarget : getTargetStage stages (isMergedOf e) (isClosedOf e) (isOpenedOf e)
        r.action = some stages.done := by
      rw [hm, hcl, hop, hract]
      simp [getTargetStage]
    simp only [processPrRef, hget, hmsg, htarget, htr, if_true, hset]

def stagesC5 : StageConfig := ⟨StageRef.id 5, some (StageRef.id 2), some (StageRef.id 6)⟩

theorem pr_stage_selection_amended_witness :
    (isClosedOf eventC5a = false ∧ isOpenedOf eventC5a = false) ∧
    (getTargetStage stagesC5 true false false ReferenceAction.close =
      some (StageRef.id 5)) ∧
    (getTargetStage stagesC5 true false false ReferenceAction.ref = none) ∧
    (getTargetStage stagesC5 false true false ReferenceAction.ref =
      some (StageRef.id 6)) ∧
    (getTargetStage stagesC5 false false true ReferenceAction.ref =
      some (StageRef.id 2)) ∧
    (processPrRef envC5 stagesC5 eventC5a ⟨ReferenceAction.close, 1⟩ =
      ⟨1, [], [taskLabel 1],
       [PrCall.getTask 1, PrCall.addMessage 1 (prMessage eventC5a),
        PrCall.setStage 1 (StageRef.id 5)]⟩) := by
  have h := pr_stage_selection_amended stagesC5 eventC5a envC5 ⟨ReferenceAction.close, 1⟩ 1 true
  exact ⟨h.1 rfl, h.2.1, h.2.2.1, h.2.2.2.1 ReferenceAction.ref rfl,
    h.2.2.2.2.1 ReferenceAction.ref rfl,
    h.2.2.2.2.2 rfl rfl rfl rfl rfl rfl⟩

/-! ## Pull-request summary comment -/

/-- Recognizer for the GitHub comment post in a PR trace. -/
def isPostComment : PrCall → Bool
  | PrCall.postComment _ _ _ _ => true
  | _ => false

/-- The references the handler parses for a PR event. -/
def prRefsOf (e : PrEvent) : List TaskReference := parseReferences (prText e)

/-- The state of the PR loop after processing all parsed references. -/
def prAccOf (env : PrEnv) (stages : StageConfig) (e : PrEvent) : PrAcc :=
  prLoop env stages e (prRefsOf e)

theorem processPrRef_no_comment (env : PrEnv) (stages : StageConfig) (e : PrEvent)
    (r : TaskReference) :
    (processPrRef env stages e r).calls.countP isPostComment = 0 := by
  simp only [processPrRef]
  cases hg : env.getTask r.taskId with
  | error msg => simp [isPostComment]
  | ok o =>
    cases o with
    | none => simp [isPostComment]
    | some u =>
      cases hm : env.addMessage r.taskId (prMessage e) with
      | error err => simp [isPostComment]
      | ok k =>
        cases ht : getTargetStage stages (isMergedOf e) (isClosedOf e) (isOpenedOf e)
            r.action with
        | none => simp [isPostComment]
        | some tr =>
          by_cases htr : refTruthy tr = true
          · cases hs : env.setStage r.taskId tr <;> simp [hs, htr, isPostComment]
          · simp [htr, isPostComment]

theorem prLoopAux_no_comment (env : PrEnv) (stages : StageConfig) (e : PrEvent) :
    ∀ (refs : List TaskReference) (acc : PrAcc),
      (refs.foldl
        (fun acc r =>
          let so := processPrRef env stages e r
          ⟨acc.processed + so.inc, acc.errors ++ so.errs,
           acc.updated ++ so.updated, acc.calls ++ so.calls⟩) acc).calls.countP
        isPostComment = acc.calls.countP isPostComment := by
  intro refs
  induction refs with
  | nil => intro acc; rfl
  | cons r rs ih =>
    intro acc
    rw [List.foldl_cons, ih]
    simp [List.countP_append, processPrRef_no_comment]

theorem prLoop_no_comment (env : PrEnv) (stages : StageConfig) (e : PrEvent)
    (refs : List TaskReference) :
    (prLoop env stages e refs).calls.countP isPostComment = 0 :=
  prLoopAux_no_comment env stages e refs ⟨0, [], [], []⟩

/-- C6.  The summary comment is posted at most once, and it is attempted
exactly when the comment capability is configured, the PR action is handled
and not `closed`, and at least one task was successfully updated; when the
comment post fails, the failure is appended to the error list and the
processed count is unchanged. -/
theorem pr_comment_policy (env : PrEnv) (stages : StageConfig) (e : PrEvent)
    (cfg : Option GitHubCommentConfig) :
    ((handlePullRequestEvent env stages e cfg).2.countP isPostComment =
      if cfg.isSome = true ∧ e.action ∈ handledActions ∧ e.action ≠ "closed" ∧
          (prAccOf env stages e).updated ≠ [] then 1 else 0) ∧
    (∀ err, cfg.isSome = true → e.action ∈ handledActions → e.action ≠ "closed" →
      (prAccOf env stages e).updated ≠ [] →
      env.postComment e.owner e.repoName e.number
        (summaryBody (prAccOf env stages e).updated) = Except.error err →
      (handlePullRequestEvent env stages e cfg).1 =
        ⟨(prAccOf env stages e).processed,
         (prAccOf env stages e).errors ++ [s!"GitHub comment failed: {err}"]⟩) := by
  constructor
  · by_cases hact : e.action ∈ handledActions
    · rw [handlePullRequestEvent, if_pos hact]
      by_cases hrefs : (parseReferences (prText e)).isEmpty
      · have hnil : parseReferences (prText e) = [] := List.isEmpty_iff.1 hrefs
        rw [if_pos hrefs]
        have hupd : (prAccOf env stages e).updated = [] := by
          simp [prAccOf, prRefsOf, hnil, prLoop]
        simp [hupd]
      · rw [if_neg hrefs]
        have hacc : prLoop env stages e (parseReferences (prText e)) =
            prAccOf env stages e := rfl
        by_cases hcomm : (cfg.isSome &&
            !(prAccOf env stages e).updated.isEmpty && e.action != "closed") = true
        · rw [hacc, if_pos hcomm]
          simp only [Bool.and_eq_true, Bool.not_eq_eq_eq_not, bne_iff_ne] at hcomm
          obtain ⟨⟨hcfg, hupd⟩, hne⟩ := hcomm
          have hupd' : (prAccOf env stages e).updated ≠ [] := by
            intro hc
            rw [hc] at hupd
            simp at hupd
          have h0 : (prAccOf env stages e).calls.countP isPostComment = 0 :=
            prLoop_no_comment env stages e (prRefsOf e)
          have hcond : cfg.isSome = true ∧ e.action ∈ handledActions ∧
              e.action ≠ "closed" ∧ (prAccOf env stages e).updated ≠ [] :=
            ⟨hcfg, hact, hne, hupd'⟩
          rw [if_pos hcond]
          cases hpost : env.postComment e.owner e.repoName e.number
              (summaryBody (prAccOf env stages e).updated) <;>
            simp [hpost, List.countP_append, h0, isPostComment]
        · rw [hacc, if_neg hcomm]
          have h0 : (prAccOf env stages e).calls.countP isPostComment = 0 :=
            prLoop_no_comment env stages e (prRefsOf e)
          have hcond : ¬ (cfg.isSome = true ∧ e.action ∈ handledActions ∧
              e.action ≠ "closed" ∧ (prAccOf env stages e).updated ≠ []) := by
            rintro ⟨h1, _, h3, h4⟩
            apply hcomm
            have h4' : (prAccOf env stages e).updated.isEmpty = false := by
              cases hu : (prAccOf env stages e).updated with
              | nil => exact absurd hu h4
              | cons a as => rfl
            simp [h1, h3, h4']
          show (prAccOf env stages e).calls.countP isPostComment = _
          rw [h0, if_neg hcond]
    · rw [handlePullRequestEvent, if_neg hact]
      simp [hact]
  · intro err hcfg hact hne hupd hpost
    rw [handlePullRequestEvent, if_pos hact]
    have hrefs : ¬ (parseReferences (prText e)).isEmpty := by
      intro hc
      apply hupd
      have hnil : parseReferences (prText e) = [] := List.isEmpty_iff.1 hc
      simp [prAccOf, prRefsOf, hnil, prLoop]
    rw [if_neg hrefs]
    have hacc : prLoop env stages e (parseReferences (prText e)) =
        prAccOf env stages e := rfl
    have hcomm : (cfg.isSome &&
        !(prAccOf env stages e).updated.isEmpty && e.action != "closed") = true := by
      simp [hcfg, hupd, hne]
    rw [hacc, if_pos hcomm]
    simp only [hpost]

def envC6 : PrEnv :=
  { getTask := fun _ => Except.ok (some ()),
    addMessage := fun _ _ => Except.ok 1,
    setStage := fun _ _ => Except.ok true,
    postComment := fun _ _ _ _ => Except.error "down" }

def eventC6 : PrEvent :=
  ⟨"opened", 7, "Refs ODP-1", none, "https://pr/7", false, "own", "repo"⟩

def stagesC6 : StageConfig := ⟨StageRef.id 5, none, none⟩

theorem pr_comment_policy_witness :
    ((handlePullRequestEvent envC6 stagesC6 eventC6 (some ⟨"tok"⟩)).2.countP isPostComment =
      if (some (GitHubCommentConfig.mk "tok")).isSome = true ∧
          eventC6.action ∈ handledActions ∧ eventC6.action ≠ "closed" ∧
          (prAccOf envC6 stagesC6 eventC6).updated ≠ [] then 1 else 0) ∧
    (handlePullRequestEvent envC6 stagesC6 eventC6 (some ⟨"tok"⟩)).1 =
      ⟨(prAccOf envC6 stagesC6 eventC6).processed,
       (prAccOf envC6 stagesC6 eventC6).errors ++ ["GitHub comment failed: down"]⟩ := by
  have h := pr_comment_policy envC6 stagesC6 eventC6 (some ⟨"tok"⟩)
  exact ⟨h.1, h.2 "down" rfl (by decide) (by decide) (by decide) rfl⟩

/-! ## RPC retry policy -/

theorem rpcGo_zero {T : Type} (env : Nat → RpcAttempt T) (attempt : Nat)
    (le : Option String) (ds : List Nat) :
    rpcGo env 0 attempt le ds =
      ⟨Except.error (le.getD "Odoo RPC failed after retries"), attempt, ds⟩ := rfl

theorem rpcGo_succ {T : Type} (env : Nat → RpcAttempt T) (remaining attempt : Nat)
    (le : Option String) (ds : List Nat) :
    rpcGo env (remaining + 1) attempt le ds =
      (let delays' := if attempt == 0 then ds else ds ++ [backoffDelay attempt]
       match env attempt with
       | RpcAttempt.fetchThrow te msg =>
         if transientThrow te msg then rpcGo env remaining (attempt + 1) (some msg) delays'
         else ⟨Except.error msg, attempt + 1, delays'⟩
       | RpcAttempt.response code st body =>
         if retryableStatus code then
           rpcGo env remaining (attempt + 1) (some (httpErrMsg code st)) delays'
         else if responseOk code then
           match body with
           | RpcJson.parseFail m => ⟨Except.error m, attempt + 1, delays'⟩
           | RpcJson.rpcErr m => ⟨Except.error (rpcErrMsg m), attempt + 1, delays'⟩
           | RpcJson.result t => ⟨Except.ok t, attempt + 1, delays'⟩
         else ⟨Except.error (httpErrMsg code st), attempt + 1, delays'⟩) := rfl

theorem backoffDelay_cons_range (attempt k : Nat) :
    backoffDelay attempt :: (List.range k).map (fun i => backoffDelay (attempt + 1 + i)) =
      (List.range (k + 1)).map (fun i => backoffDelay (attempt + i)) := by
  rw [List.range_succ_eq_map, List.map_cons, List.map_map]
  congr 1
  apply List.map_congr_left
  intro i _
  simp only [Function.comp]
  congr 1
  omega

theorem rpcGo_all_retryable {T : Type} (env : Nat → RpcAttempt T) :
    ∀ (remaining attempt : Nat) (le : Option String) (ds : List Nat),
      1 ≤ attempt → 1 ≤ remaining →
      (∀ j, attempt ≤ j → j < attempt + remaining → attemptRetryable (env j) = true) →
      (rpcGo env remaining attempt le ds).out =
          Except.error (attemptErrMsg (env (attempt + remaining - 1))) ∧
      (rpcGo env remaining attempt le ds).attempts = attempt + remaining ∧
      (rpcGo env remaining attempt le ds).delays =
          ds ++ (List.range remaining).map (fun i => backoffDelay (attempt + i)) := by
  intro remaining
  induction remaining with
  | zero => intro attempt le ds _ h1 _; omega
  | succ k ih =>
    intro attempt le ds hatt _ hall
    have h0 : (attempt == 0) = false := by
      simp only [beq_eq_false_iff_ne, ne_eq]
      omega
    have hr : attemptRetryable (env attempt) = true :=
      hall attempt (Nat.le_refl attempt) (by omega)
    rw [rpcGo_succ]
    simp only [h0, Bool.false_eq_true, if_false]
    cases henv : env attempt with
    | fetchThrow te msg =>
      rw [henv] at hr
      simp only [attemptRetryable] at hr
      simp only [hr, if_true]
      cases k with
      | zero =>
        rw [rpcGo_zero]
        refine ⟨?_, rfl, ?_⟩
        · rw [show attempt + 1 - 1 = attempt from by omega, henv]
          rfl
        · simp [List.range_succ]
      | succ k' =>
        obtain ⟨ih1, ih2, ih3⟩ := ih (attempt + 1) (some msg)
          (ds ++ [backoffDelay attempt]) (by omega) (by omega)
          (fun j hj1 hj2 => hall j (by omega) (by omega))
        refine ⟨ih1.trans ?_, ih2.trans (by omega), ih3.trans ?_⟩
        · rw [show attempt + 1 + (k' + 1) - 1 = attempt + (k' + 1 + 1) - 1 from by omega]
        · rw [List.append_assoc, List.singleton_append,
            backoffDelay_cons_range attempt (k' + 1)]
    | response code st body =>
      rw [henv] at hr
      simp only [attemptRetryable] at hr
      simp only [hr, if_true]
      cases k with
      | zero =>
        rw [rpcGo_zero]
        refine ⟨?_, rfl, ?_⟩
        · rw [show attempt + 1 - 1 = attempt from by omega, henv]
          rfl
        · simp [List.range_succ]
      | succ k' =>
        obtain ⟨ih1, ih2, ih3⟩ := ih (attempt + 1) (some (httpErrMsg code st))
          (ds ++ [backoffDelay attempt]) (by omega) (by omega)
          (fun j hj1 hj2 => hall j (by omega) (by omega))
        refine ⟨ih1.trans ?_, ih2.trans (by omega), ih3.trans ?_⟩
        · rw [show attempt + 1 + (k' + 1) - 1 = attempt + (k' + 1 + 1) - 1 from by omega]
        · rw [List.append_assoc, List.singleton_append,
            backoffDelay_cons_range attempt (k' + 1)]

theorem rpcGo_settle {T : Type} (env : Nat → RpcAttempt T) :
    ∀ (k remaining attempt : Nat) (le : Option String) (ds : List Nat),
      (∀ j, j < k → attemptRetryable (env (attempt + j)) = true) →
      attemptRetryable (env (attempt + k)) = false →
      k < remaining →
      (rpcGo env remaining attempt le ds).out = attemptSettle (env (attempt + k)) ∧
      (rpcGo env remaining attempt le ds).attempts = attempt + k + 1 := by
  intro k
  induction k with
  | zero =>
    intro remaining attempt le ds _ hstop hlt
    cases remaining with
    | zero => omega
    | succ m =>
      rw [Nat.add_zero] at hstop
      simp only [rpcGo]
      cases henv : env attempt with
      | fetchThrow te msg =>
        rw [henv] at hstop
        simp only [attemptRetryable] at hstop
        simp only [hstop, Bool.false_eq_true, if_false, Nat.add_zero, henv]
        exact ⟨rfl, trivial⟩
      | response code st body =>
        rw [henv] at hstop
        simp only [attemptRetryable] at hstop
        simp only [hstop, Bool.false_eq_true, if_false, Nat.add_zero, henv]
        by_cases hok : responseOk code = true
        · cases body <;> simp [attemptSettle, hok, hstop]
        · have hok' : responseOk code = false := by
            cases hh : responseOk code
            · rfl
            · exact absurd hh hok
          cases body <;> simp [attemptSettle, hok', hstop]
  | succ k' ih =>
    intro remaining attempt le ds hpre hstop hlt
    cases remaining with
    | zero => omega
    | succ m =>
      have hr : attemptRetryable (env attempt) = true := by
        have := hpre 0 (by omega)
        rwa [Nat.add_zero] at this
      have hpre' : ∀ j, j < k' → attemptRetryable (env (attempt + 1 + j)) = true := by
        intro j hj
        have := hpre (j + 1) (by omega)
        rwa [show attempt + (j + 1) = attempt + 1 + j from by omega] at this
      have hstop' : attemptRetryable (env (attempt + 1 + k')) = false := by
        rwa [show attempt + (k' + 1) = attempt + 1 + k' from by omega] at hstop
      rw [rpcGo_succ]
      cases henv : env attempt with
      | fetchThrow te msg =>
        rw [henv] at hr
        simp only [attemptRetryable] at hr
        simp only [hr, if_true]
        obtain ⟨ih1, ih2⟩ := ih m (attempt + 1) (some msg)
          (if (attempt == 0) = true then ds else ds ++ [backoffDelay attempt])
          hpre' hstop' (by omega)
        refine ⟨ih1.trans ?_, ih2.trans (by omega)⟩
        rw [show attempt + 1 + k' = attempt + (k' + 1) from by omega]
      | response code st body =>
        rw [henv] at hr
        simp only [attemptRetryable] at hr
        simp only [hr, if_true]
        obtain ⟨ih1, ih2⟩ := ih m (attempt + 1) (some (httpErrMsg code st))
          (if (attempt == 0) = true then ds else ds ++ [backoffDelay attempt])
          hpre' hstop' (by omega)
        refine ⟨ih1.trans ?_, ih2.trans (by omega)⟩
        rw [show attempt + 1 + k' = attempt + (k' + 1) from by omega]

/-- C7.  The retry loop of `OdooClient.rpc`: (a) when every attempt is
retryable (5xx/429 status or a transient network fetch error), the call
performs exactly `retries + 1` attempts with exponentially doubling backoff
delays `500 * 2^i` from the fixed 500 base and then raises the last
observed error — it never retries beyond the bound; (b) the first
non-retryable outcome — a thrown non-transient error, a non-ok sub-500
status other than 429, or a well-formed application-level RPC error in an
ok response — settles the call immediately at that attempt, with no
further retry. -/
theorem rpc_retry_policy {T : Type} (env : Nat → RpcAttempt T) (retries : Nat) :
    ((∀ k, k ≤ retries → attemptRetryable (env k) = true) →
      (rpcCall env retries).out = Except.error (attemptErrMsg (env retries)) ∧
      (rpcCall env retries).attempts = retries + 1 ∧
      (rpcCall env retries).delays = (List.range retries).map (fun i => 500 * 2 ^ i)) ∧
    (∀ k, k ≤ retries → (∀ j, j < k → attemptRetryable (env j) = true) →
      attemptRetryable (env k) = false →
      (rpcCall env retries).out = attemptSettle (env k) ∧
      (rpcCall env retries).attempts = k + 1) := by
  constructor
  · intro hall
    have hr : attemptRetryable (env 0) = true := hall 0 (Nat.zero_le retries)
    have hstep : rpcCall env retries =
        rpcGo env retries 1 (some (attemptErrMsg (env 0))) [] := by
      show rpcGo env (retries + 1) 0 none [] = _
      rw [rpcGo_succ]
      cases henv : env 0 with
      | fetchThrow te msg =>
        rw [henv] at hr
        simp only [attemptRetryable] at hr
        simp only [hr, if_true, henv]
        rfl
      | response code st body =>
        rw [henv] at hr
        simp only [attemptRetryable] at hr
        simp only [hr, if_true, henv]
        rfl
    rw [hstep]
    cases hret : retries with
    | zero =>
      rw [rpcGo_zero]
      exact ⟨rfl, rfl, rfl⟩
    | succ r =>
      obtain ⟨h1, h2, h3⟩ := rpcGo_all_retryable env (r + 1) 1
        (some (attemptErrMsg (env 0))) [] (by omega) (by omega)
        (fun j hj1 hj2 => hall j (by omega))
      refine ⟨h1.trans ?_, h2.trans (by omega), h3.trans ?_⟩
      · rw [show 1 + (r + 1) - 1 = r + 1 from by omega]
      · rw [List.nil_append]
        apply List.map_congr_left
        intro i _
        simp only [backoffDelay]
        rw [show 1 + i - 1 = i from by omega]
  · intro k hk hpre hstop
    obtain ⟨h1, h2⟩ := rpcGo_settle env k (retries + 1) 0 none []
      (fun j hj => by rw [Nat.zero_add]; exact hpre j hj)
      (by rw [Nat.zero_add]; exact hstop) (by omega)
    exact ⟨h1.trans (by rw [Nat.zero_add]), h2.trans (by omega)⟩

def envC7a : Nat → RpcAttempt Nat :=
  fun _ => RpcAttempt.response 500 "Internal Server Error" (RpcJson.rpcErr "x")

def envC7b : Nat → RpcAttempt Nat :=
  fun k => if k = 0 then RpcAttempt.response 429 "Too Many Requests" (RpcJson.rpcErr "y")
           else RpcAttempt.response 200 "OK" (RpcJson.rpcErr "bad")

theorem rpc_retry_policy_witness :
    ((rpcCall envC7a 5).out = Except.error (attemptErrMsg (envC7a 5)) ∧
     (rpcCall envC7a 5).attempts = 6 ∧
     (rpcCall envC7a 5).delays = (List.range 5).map (fun i => 500 * 2 ^ i)) ∧
    ((rpcCall envC7b 5).out = attemptSettle (envC7b 1) ∧
     (rpcCall envC7b 5).attempts = 2) := by
  refine ⟨(rpc_retry_policy envC7a 5).1 ?_, (rpc_retry_policy envC7b 5).2 1 ?_ ?_ ?_⟩
  · intro k hk
    rfl
  · omega
  · intro j hj
    interval_cases j
    rfl
  · rfl
/-! ## Numeric stage references -/

/-- C10.  A numeric stage reference resolves to itself with no remote
search; `setStage` with a numeric reference (explicit, or defaulted from a
numeric configured done stage) performs exactly the write of that id — for
every environment, hence regardless of whether any stage with that id
exists — and its only possible failure is a propagated write error, never
`Stage not found`; conversely, a `Stage not found` failure can only arise
from a name-valued reference whose remote resolution finds no match. -/
theorem stage_numeric_policy (env : StageEnv) (stages : StageConfig) (t n : Int)
    (stageRef : Option StageRef) :
    (resolveStage env (StageRef.id n) = (some n, [])) ∧
    ((stageRef = some (StageRef.id n) ∨ (stageRef = none ∧ stages.done = StageRef.id n)) →
      setStage env stages t stageRef =
        ((env.write t n).mapError SetStageError.rpcError, [StageCall.write t n])) ∧
    (∀ r calls,
      setStage env stages t stageRef =
        (Except.error (SetStageError.stageNotFound r), calls) →
      ∃ s, r = StageRef.name s ∧ env.searchStage s = none ∧
        stageRef.getD stages.done = StageRef.name s) := by
  refine ⟨rfl, ?_, ?_⟩
  · intro h
    have href : stageRef.getD stages.done = StageRef.id n := by
      rcases h with h | ⟨h1, h2⟩
      · rw [h]; rfl
      · rw [h1]; simpa using h2
    simp only [setStage, href, resolveStage]
    cases hw : env.write t n <;> simp [Except.mapError, hw]
  · intro r calls hset
    simp only [setStage] at hset
    cases href : stageRef.getD stages.done with
    | id k =>
      rw [href] at hset
      simp only [resolveStage] at hset
      cases hw : env.write t k <;> rw [hw] at hset <;> simp at hset
    | name s =>
      rw [href] at hset
      simp only [resolveStage] at hset
      cases hs : env.searchStage s with
      | none =>
        rw [hs] at hset
        simp only [Prod.mk.injEq, Except.error.injEq,
          SetStageError.stageNotFound.injEq] at hset
        exact ⟨s, hset.1.symm, hs, rfl⟩
      | some k =>
        rw [hs] at hset
        cases hw : env.write t k <;> simp [hw] at hset

def envC10 : StageEnv :=
  { searchStage := fun _ => none,
    write := fun _ _ => Except.ok true }

def stagesC10 : StageConfig := ⟨StageRef.id 7, none, none⟩

theorem stage_numeric_policy_witness :
    (resolveStage envC10 (StageRef.id 7) = (some 7, [])) ∧
    (setStage envC10 stagesC10 3 (some (StageRef.id 7)) =
      ((envC10.write 3 7).mapError SetStageError.rpcError, [StageCall.write 3 7])) ∧
    (∃ s, StageRef.name "Done" = StageRef.name s ∧ envC10.searchStage s = none ∧
      (some (StageRef.name "Done")).getD stagesC10.done = StageRef.name s) :=
  ⟨(stage_numeric_policy envC10 stagesC10 3 7 (some (StageRef.id 7))).1,
   (stage_numeric_policy envC10 stagesC10 3 7 (some (StageRef.id 7))).2.1 (Or.inl rfl),
   (stage_numeric_policy envC10 stagesC10 3 7 (some (StageRef.name "Done"))).2.2
     (StageRef.name "Done") [StageCall.search "Done"] rfl⟩

end Ghoodoo
